import Mathlib

/-!
Verification development for the tweego-editor repository (Go).

The Harlowe value model, literal parser, expression-evaluator fragments,
conditional-chain processor and path simulator are embedded shallowly:

* Go `interface{}` values that flow through the evaluator are the closed
  union `Value` below (float64 and int both become `Value.num`, carried as
  rationals: every numeric literal and arithmetic step used by the claims
  is exact, so rational arithmetic coincides with the float arithmetic the
  code performs on those inputs).
* Go `map[string]T` is modelled as an association list with unique keys,
  looked up by first match; a Go map carries no key order, so any
  order-sensitive reading of a map value is an artifact (`Value.dataset`
  stores the canonical sorted key list for exactly this reason).
* Fallible Go functions returning `(T, error)` become `Except String T`.
-/

namespace Tweego

/-- Dynamic Harlowe value: the closed union of the Go `interface{}` shapes
the evaluator produces (`float64`/`int`, `string`, `bool`,
`[]interface{}`, `map[string]interface{}`, `map[string]bool`, `nil`).
A `dataset` is a Go `map[string]bool`, which has no key order: it is
modelled canonically as its sorted list of keys. -/
inductive Value where
  | num (n : ℚ)
  | str (s : String)
  | boolean (b : Bool)
  | arr (elems : List Value)
  | datamap (entries : List (String × Value))
  | dataset (keys : List String)
  | null
  deriving Repr, Inhabited

mutual

def Value.decEq : (a b : Value) → Decidable (a = b)
  | .num x, .num y =>
      match inferInstanceAs (Decidable (x = y)) with
      | isTrue h => isTrue (by rw [h])
      | isFalse h => isFalse (by simpa using h)
  | .str x, .str y =>
      match inferInstanceAs (Decidable (x = y)) with
      | isTrue h => isTrue (by rw [h])
      | isFalse h => isFalse (by simpa using h)
  | .boolean x, .boolean y =>
      match inferInstanceAs (Decidable (x = y)) with
      | isTrue h => isTrue (by rw [h])
      | isFalse h => isFalse (by simpa using h)
  | .arr xs, .arr ys =>
      match Value.decEqList xs ys with
      | isTrue h => isTrue (by rw [h])
      | isFalse h => isFalse (by simpa using h)
  | .datamap xs, .datamap ys =>
      match Value.decEqEntries xs ys with
      | isTrue h => isTrue (by rw [h])
      | isFalse h => isFalse (by simpa using h)
  | .dataset x, .dataset y =>
      match inferInstanceAs (Decidable (x = y)) with
      | isTrue h => isTrue (by rw [h])
      | isFalse h => isFalse (by simpa using h)
  | .null, .null => isTrue rfl
  | .num _, .str _ => isFalse (fun h => Value.noConfusion h)
  | .num _, .boolean _ => isFalse (fun h => Value.noConfusion h)
  | .num _, .arr _ => isFalse (fun h => Value.noConfusion h)
  | .num _, .datamap _ => isFalse (fun h => Value.noConfusion h)
  | .num _, .dataset _ => isFalse (fun h => Value.noConfusion h)
  | .num _, .null => isFalse (fun h => Value.noConfusion h)
  | .str _, .num _ => isFalse (fun h => Value.noConfusion h)
  | .str _, .boolean _ => isFalse (fun h => Value.noConfusion h)
  | .str _, .arr _ => isFalse (fun h => Value.noConfusion h)
  | .str _, .datamap _ => isFalse (fun h => Value.noConfusion h)
  | .str _, .dataset _ => isFalse (fun h => Value.noConfusion h)
  | .str _, .null => isFalse (fun h => Value.noConfusion h)
  | .boolean _, .num _ => isFalse (fun h => Value.noConfusion h)
  | .boolean _, .str _ => isFalse (fun h => Value.noConfusion h)
  | .boolean _, .arr _ => isFalse (fun h => Value.noConfusion h)
  | .boolean _, .datamap _ => isFalse (fun h => Value.noConfusion h)
  | .boolean _, .dataset _ => isFalse (fun h => Value.noConfusion h)
  | .boolean _, .null => isFalse (fun h => Value.noConfusion h)
  | .arr _, .num _ => isFalse (fun h => Value.noConfusion h)
  | .arr _, .str _ => isFalse (fun h => Value.noConfusion h)
  | .arr _, .boolean _ => isFalse (fun h => Value.noConfusion h)
  | .arr _, .datamap _ => isFalse (fun h => Value.noConfusion h)
  | .arr _, .dataset _ => isFalse (fun h => Value.noConfusion h)
  | .arr _, .null => isFalse (fun h => Value.noConfusion h)
  | .datamap _, .num _ => isFalse (fun h => Value.noConfusion h)
  | .datamap _, .str _ => isFalse (fun h => Value.noConfusion h)
  | .datamap _, .boolean _ => isFalse (fun h => Value.noConfusion h)
  | .datamap _, .arr _ => isFalse (fun h => Value.noConfusion h)
  | .datamap _, .dataset _ => isFalse (fun h => Value.noConfusion h)
  | .datamap _, .null => isFalse (fun h => Value.noConfusion h)
  | .dataset _, .num _ => isFalse (fun h => Value.noConfusion h)
  | .dataset _, .str _ => isFalse (fun h => Value.noConfusion h)
  | .dataset _, .boolean _ => isFalse (fun h => Value.noConfusion h)
  | .dataset _, .arr _ => isFalse (fun h => Value.noConfusion h)
  | .dataset _, .datamap _ => isFalse (fun h => Value.noConfusion h)
  | .dataset _, .null => isFalse (fun h => Value.noConfusion h)
  | .null, .num _ => isFalse (fun h => Value.noConfusion h)
  | .null, .str _ => isFalse (fun h => Value.noConfusion h)
  | .null, .boolean _ => isFalse (fun h => Value.noConfusion h)
  | .null, .arr _ => isFalse (fun h => Value.noConfusion h)
  | .null, .datamap _ => isFalse (fun h => Value.noConfusion h)
  | .null, .dataset _ => isFalse (fun h => Value.noConfusion h)

def Value.decEqList : (a b : List Value) → Decidable (a = b)
  | [], [] => isTrue rfl
  | [], _ :: _ => isFalse (fun h => List.noConfusion h)
  | _ :: _, [] => isFalse (fun h => List.noConfusion h)
  | x :: xs, y :: ys =>
      match Value.decEq x y, Value.decEqList xs ys with
      | isTrue h1, isTrue h2 => isTrue (by rw [h1, h2])
      | isFalse h1, _ => isFalse (by simp [h1])
      | _, isFalse h2 => isFalse (by simp [h2])

def Value.decEqEntries : (a b : List (String × Value)) → Decidable (a = b)
  | [], [] => isTrue rfl
  | [], _ :: _ => isFalse (fun h => List.noConfusion h)
  | _ :: _, [] => isFalse (fun h => List.noConfusion h)
  | (k, v) :: xs, (k', v') :: ys =>
      match inferInstanceAs (Decidable (k = k')), Value.decEq v v',
          Value.decEqEntries xs ys with
      | isTrue h0, isTrue h1, isTrue h2 => isTrue (by rw [h0, h1, h2])
      | isFalse h0, _, _ => isFalse (by simp [h0])
      | _, isFalse h1, _ => isFalse (by simp [h1])
      | _, _, isFalse h2 => isFalse (by simp [h2])

end

instance : DecidableEq Value := Value.decEq

/-- First-match lookup in an association list (Go map read `m[k]`). -/
def mapLookup {α : Type} (m : List (String × α)) (k : String) : Option α :=
  match m with
  | [] => none
  | (k', v) :: rest => if k' = k then some v else mapLookup rest k

/-- Key update in an association list (Go map write `m[k] = v`):
replaces the binding of `k` if present, appends it otherwise. -/
def mapInsert {α : Type} (m : List (String × α)) (k : String) (v : α) :
    List (String × α) :=
  match m with
  | [] => [(k, v)]
  | (k', v') :: rest =>
      if k' = k then (k, v) :: rest else (k', v') :: mapInsert rest k v

/-- The keys of an association list. -/
def mapKeys {α : Type} (m : List (String × α)) : List String :=
  m.map Prod.fst

def digitVal (c : Char) : ℕ := c.toNat - 48

def digitsToNat (l : List Char) : ℕ :=
  l.foldl (fun a c => 10 * a + digitVal c) 0

/-- Model of Go `strconv.ParseFloat(s, 64)` on the decimal forms the
repository uses: optional sign, digits, optional fractional part, at
least one digit overall.  Exponent, hexadecimal, `Inf` and `NaN` forms
are accepted by Go but never produced by the claims' inputs and are not
modelled. -/
def parseNumber? (s : String) : Option ℚ :=
  let l := s.toList
  let (sign, l) : ℚ × List Char :=
    match l with
    | '-' :: t => (-1, t)
    | '+' :: t => (1, t)
    | _ => (1, l)
  let intPart := l.takeWhile Char.isDigit
  let rest := l.dropWhile Char.isDigit
  match rest with
  | [] =>
      if intPart.isEmpty then none
      else some (sign * (digitsToNat intPart : ℚ))
  | '.' :: frac =>
      if frac.all Char.isDigit ∧ ¬(intPart.isEmpty ∧ frac.isEmpty) then
        some (sign * ((digitsToNat intPart : ℚ) +
          (digitsToNat frac : ℚ) / (10 : ℚ) ^ frac.length))
      else none
  | _ => none

/-- `toNumber` from `evaluator.go`: int and float64 values are numbers,
strings are parsed with `strconv.ParseFloat`, everything else fails. -/
def toNumber : Value → Option ℚ
  | .num n => some n
  | .str s => parseNumber? s
  | _ => none

/-- `toNumber` from the simulator (`fmt.Sscanf(v, "%f", &num)` on
strings): `Sscanf` skips leading spaces and reads a maximal leading
float token, tolerating trailing characters.  Exponent forms are again
not modelled. -/
def simToNumber : Value → Option ℚ
  | .num n => some n
  | .str s =>
      let l := (s.toList).dropWhile (fun c => c = ' ')
      let (sign, l) : ℚ × List Char :=
        match l with
        | '-' :: t => (-1, t)
        | '+' :: t => (1, t)
        | _ => (1, l)
      let intPart := l.takeWhile Char.isDigit
      let rest := l.dropWhile Char.isDigit
      match rest with
      | '.' :: frac =>
          let fracPart := frac.takeWhile Char.isDigit
          if intPart.isEmpty ∧ fracPart.isEmpty then none
          else some (sign * ((digitsToNat intPart : ℚ) +
            (digitsToNat fracPart : ℚ) / (10 : ℚ) ^ fracPart.length))
      | _ =>
          if intPart.isEmpty then none
          else some (sign * (digitsToNat intPart : ℚ))
  | _ => none

/-- `ConditionalHandler.toBool` (conditionals.go): Harlowe truthiness
with a `false` default arm (datasets and nil are false). -/
def toBool : Value → Bool
  | .boolean b => b
  | .num n => decide (n ≠ 0)
  | .str s => decide (s ≠ "")
  | .arr xs => decide (0 < xs.length)
  | .datamap m => decide (0 < m.length)
  | _ => false

/-- The coercion switch of `HarloweEvaluator.EvaluateCondition`
(evaluator.go lines 78-93).  Its default arm is `result != nil`, so a
dataset value (a non-nil `map[string]bool`) coerces to `true`, and only
a nil result coerces to `false`. -/
def evalConditionCoerce : Value → Bool
  | .boolean b => b
  | .num n => decide (n ≠ 0)
  | .str s => decide (s ≠ "")
  | .arr xs => decide (0 < xs.length)
  | .datamap m => decide (0 < m.length)
  | .dataset _ => true
  | .null => false

/-! ## Conditional chain processor (conditionals.go) -/

/-- `ConditionalResult` (conditionals.go): the outcome of resolving one
chain.  `hookType` is one of "if", "else-if", "else", "unless". -/
structure ConditionalResult where
  conditionMet : Bool
  activeHook : String
  hookType : String
  deriving Repr, DecidableEq, Inhabited

/-- Whether a chain starts with `(if:)` or `(unless:)`; a chain starting
with `(else-if:)`/`(else:)` is rejected by `ProcessConditionalChain`
before any node is parsed, so only these two leads occur in a
well-formed chain. -/
inductive LeadKind where
  | ifLead
  | unlessLead
  deriving Repr, DecidableEq

/-- One `(else-if: cond)[hook]` node as matched by the regex in
`processElseIfChain`. -/
structure ElseIfNode where
  cond : String
  hook : String
  deriving Repr, DecidableEq

/-- A well-formed conditional chain: a leading `(if:)` or `(unless:)`
node, zero or more `(else-if:)` nodes, an optional trailing `(else:)`
hook.  This is the parse that the regexes of conditionals.go extract
from the concrete chain text. -/
structure Chain where
  lead : LeadKind
  leadCond : String
  leadHook : String
  elseIfs : List ElseIfNode
  elseHook : Option String
  deriving Repr, DecidableEq

/-- `processElse` (conditionals.go lines 171-197): the `(else:)` hook is
active exactly when no earlier hook was shown. -/
def processElse (hook : String) (previousHookShown : Bool) :
    ConditionalResult :=
  if !previousHookShown then ⟨true, hook, "else"⟩
  else ⟨false, "", "else"⟩

/-- The `previousHookShown = false` body of `processElseIfChain`
(conditionals.go lines 112-164), on the parsed node list.  The Go code
walks the remaining chain text recursively and always re-enters with
`previousHookShown = false`, so the recursion lives entirely in this
branch. -/
def processElseIfRest (evalCond : String → Except String Bool)
    (elseHook : Option String) :
    ElseIfNode → List ElseIfNode → Except String ConditionalResult
  | node, [] =>
    match evalCond node.cond with
    | .error e => .error ("error evaluating else-if condition: " ++ e)
    | .ok true => .ok ⟨true, node.hook, "else-if"⟩
    | .ok false =>
      match elseHook with
      | some h => .ok (processElse h false)
      | none => .ok ⟨false, "", "else-if"⟩
  | node, next :: rest' =>
    match evalCond node.cond with
    | .error e => .error ("error evaluating else-if condition: " ++ e)
    | .ok true => .ok ⟨true, node.hook, "else-if"⟩
    | .ok false => processElseIfRest evalCond elseHook next rest'

/-- `processElseIfChain` (conditionals.go lines 112-164): if the
previous hook was shown this node is skipped outright, otherwise its
condition decides between showing its hook and walking the rest of the
chain. -/
def processElseIfChain (evalCond : String → Except String Bool)
    (node : ElseIfNode) (rest : List ElseIfNode)
    (elseHook : Option String) (previousHookShown : Bool) :
    Except String ConditionalResult :=
  if previousHookShown then .ok ⟨false, "", "else-if"⟩
  else processElseIfRest evalCond elseHook node rest

/-- `processIfChain` (conditionals.go lines 62-105). -/
def processIfChain (evalCond : String → Except String Bool)
    (c : Chain) : Except String ConditionalResult :=
  match evalCond c.leadCond with
  | .error e => .error ("error evaluating if condition: " ++ e)
  | .ok b =>
    if b then .ok ⟨true, c.leadHook, "if"⟩
    else
      match c.elseIfs with
      | node :: rest => processElseIfChain evalCond node rest c.elseHook false
      | [] =>
        match c.elseHook with
        | some h => .ok (processElse h false)
        | none => .ok ⟨false, "", "if"⟩

/-- `processUnlessChain` (conditionals.go lines 205-247): the leading
test is inverted, the rest of the chain is processed identically. -/
def processUnlessChain (evalCond : String → Except String Bool)
    (c : Chain) : Except String ConditionalResult :=
  match evalCond c.leadCond with
  | .error e => .error ("error evaluating unless condition: " ++ e)
  | .ok b =>
    if !b then .ok ⟨true, c.leadHook, "unless"⟩
    else
      match c.elseIfs with
      | node :: rest => processElseIfChain evalCond node rest c.elseHook false
      | [] =>
        match c.elseHook with
        | some h => .ok (processElse h false)
        | none => .ok ⟨false, "", "unless"⟩

/-- `ProcessConditionalChain` (conditionals.go lines 39-55) restricted
to well-formed chains: dispatch on the leading keyword. -/
def processConditionalChain (evalCond : String → Except String Bool)
    (c : Chain) : Except String ConditionalResult :=
  match c.lead with
  | .ifLead => processIfChain evalCond c
  | .unlessLead => processUnlessChain evalCond c

/-- The truth condition the leading node itself carries: an `(if:)` node
fires when its condition is true, an `(unless:)` node when it is
false. -/
def leadTruth (evalB : String → Bool) (c : Chain) : Bool :=
  match c.lead with
  | .ifLead => evalB c.leadCond
  | .unlessLead => !evalB c.leadCond

/-- The hook type name of the leading node. -/
def leadTypeName (c : Chain) : String :=
  match c.lead with
  | .ifLead => "if"
  | .unlessLead => "unless"

/-- Specification-side chain resolution: the hook (with its type) of
the first node in source order whose own truth condition holds — the
leading node first, then each `(else-if:)` in order, then the
always-true `(else:)` hook. -/
def specFirstHook (evalB : String → Bool) (c : Chain) :
    Option (String × String) :=
  if leadTruth evalB c then some (c.leadHook, leadTypeName c)
  else
    match c.elseIfs.find? (fun n => evalB n.cond) with
    | some n => some (n.hook, "else-if")
    | none => c.elseHook.map (fun h => (h, "else"))

theorem processElseIfChain_spec (evalCond : String → Except String Bool)
    (evalB : String → Bool) (h : ∀ s, evalCond s = .ok (evalB s)) :
    ∀ (node : ElseIfNode) (rest : List ElseIfNode)
      (elseHook : Option String),
    processElseIfChain evalCond node rest elseHook false =
      .ok (match (node :: rest).find? (fun n => evalB n.cond) with
           | some n => ⟨true, n.hook, "else-if"⟩
           | none =>
             match elseHook with
             | some hk => ⟨true, hk, "else"⟩
             | none => ⟨false, "", "else-if"⟩) := by
  intro node rest elseHook
  rw [processElseIfChain, if_neg (by simp)]
  induction rest generalizing node with
  | nil =>
      cases elseHook <;>
      · rw [processElseIfRest, h node.cond]
        cases hb : evalB node.cond <;> simp [List.find?, hb, processElse]
  | cons next rest' ih =>
      cases elseHook <;>
      · rw [processElseIfRest, h node.cond]
        cases hb : evalB node.cond with
        | true => simp [List.find?, hb]
        | false => simpa [List.find?, hb] using ih next

/-- C1: for every well-formed `if`/`unless` conditional chain and every
condition-truth assignment (any variable state under which every
condition in the chain evaluates), `ProcessConditionalChain` yields at
most one active hook — the single returned `ConditionalResult` is
active iff some node's own truth condition holds — and the active hook
is the hook of the first node in source order whose truth condition
holds, all nodes after it being ignored regardless of their
conditions. -/
theorem C1_chain_exclusivity (evalCond : String → Except String Bool)
    (evalB : String → Bool) (c : Chain)
    (h : ∀ s, evalCond s = .ok (evalB s)) :
    ∃ r, processConditionalChain evalCond c = .ok r ∧
      r.conditionMet = (specFirstHook evalB c).isSome ∧
      r.activeHook = ((specFirstHook evalB c).map Prod.fst).getD "" ∧
      ∀ hk ty, specFirstHook evalB c = some (hk, ty) → r.hookType = ty := by
  obtain ⟨lead, lc, lh, eis, eh⟩ := c
  cases lead with
  | ifLead =>
      cases hb : evalB lc with
      | true =>
          simp [processConditionalChain, processIfChain, specFirstHook,
            leadTruth, leadTypeName, h, hb]
      | false =>
          cases eis with
          | nil =>
              cases eh <;>
                simp [processConditionalChain, processIfChain, specFirstHook,
                  leadTruth, leadTypeName, h, hb, processElse]
          | cons node rest =>
              rw [show processConditionalChain evalCond
                    ⟨.ifLead, lc, lh, node :: rest, eh⟩ =
                  processIfChain evalCond ⟨.ifLead, lc, lh, node :: rest, eh⟩
                  from rfl]
              simp only [processIfChain, h, hb]
              rw [processElseIfChain_spec evalCond evalB h node rest eh]
              cases hfind : (node :: rest).find? (fun n => evalB n.cond) <;>
                cases eh <;>
                  simp [specFirstHook, leadTruth, hb, hfind, processElse]
  | unlessLead =>
      cases hb : evalB lc with
      | false =>
          simp [processConditionalChain, processUnlessChain, specFirstHook,
            leadTruth, leadTypeName, h, hb]
      | true =>
          cases eis with
          | nil =>
              cases eh <;>
                simp [processConditionalChain, processUnlessChain,
                  specFirstHook, leadTruth, leadTypeName, h, hb, processElse]
          | cons node rest =>
              rw [show processConditionalChain evalCond
                    ⟨.unlessLead, lc, lh, node :: rest, eh⟩ =
                  processUnlessChain evalCond
                    ⟨.unlessLead, lc, lh, node :: rest, eh⟩ from rfl]
              simp only [processUnlessChain, h, hb]
              rw [processElseIfChain_spec evalCond evalB h node rest eh]
              cases hfind : (node :: rest).find? (fun n => evalB n.cond) <;>
                cases eh <;>
                  simp [specFirstHook, leadTruth, hb, hfind, processElse]

/-- C1 witness: a concrete if/else-if/else chain whose second node is
the first one with a true condition; resolution activates exactly that
hook. -/
theorem C1_witness :
    ∃ r, processConditionalChain (fun s => .ok (s == "A"))
        ⟨.ifLead, "B", "H1", [⟨"A", "H2"⟩], some "H3"⟩ = .ok r ∧
      r.conditionMet = (specFirstHook (fun s => s == "A")
        ⟨.ifLead, "B", "H1", [⟨"A", "H2"⟩], some "H3"⟩).isSome ∧
      r.activeHook = ((specFirstHook (fun s => s == "A")
        ⟨.ifLead, "B", "H1", [⟨"A", "H2"⟩], some "H3"⟩).map Prod.fst).getD "" ∧
      ∀ hk ty, specFirstHook (fun s => s == "A")
          ⟨.ifLead, "B", "H1", [⟨"A", "H2"⟩], some "H3"⟩ = some (hk, ty) →
        r.hookType = ty :=
  C1_chain_exclusivity (fun s => .ok (s == "A")) (fun s => s == "A")
    ⟨.ifLead, "B", "H1", [⟨"A", "H2"⟩], some "H3"⟩ (fun _ => rfl)

/-- C5 counterexample: the claim says a value of any kind other than
Boolean/Number/String/Array/Datamap — including a Dataset — is false,
but the coercion in `HarloweEvaluator.EvaluateCondition` ends in
`return result != nil, nil`, and a dataset (a non-nil `map[string]bool`,
even an empty one) is therefore true there; `toBool` disagrees. -/
theorem C5_counterexample :
    evalConditionCoerce (Value.dataset []) = true ∧
    toBool (Value.dataset []) = false :=
  ⟨rfl, rfl⟩

/-- C5 amended: a Boolean passes through, a Number is true iff nonzero,
a String is true iff non-empty, an Array or Datamap is true iff
non-empty, in both coercions; for the remaining kinds
`ConditionalHandler.toBool` returns false (Dataset and nil alike) while
the coercion in `HarloweEvaluator.EvaluateCondition` returns `result !=
nil`, so there a Dataset is true and only a nil result is false. -/
theorem C5_truthiness (b : Bool) (n : ℚ) (s : String) (xs : List Value)
    (m : List (String × Value)) (ks : List String) :
    toBool (.boolean b) = b ∧ evalConditionCoerce (.boolean b) = b ∧
    (toBool (.num n) = true ↔ n ≠ 0) ∧
    (evalConditionCoerce (.num n) = true ↔ n ≠ 0) ∧
    (toBool (.str s) = true ↔ s ≠ "") ∧
    (evalConditionCoerce (.str s) = true ↔ s ≠ "") ∧
    (toBool (.arr xs) = true ↔ xs ≠ []) ∧
    (evalConditionCoerce (.arr xs) = true ↔ xs ≠ []) ∧
    (toBool (.datamap m) = true ↔ m ≠ []) ∧
    (evalConditionCoerce (.datamap m) = true ↔ m ≠ []) ∧
    toBool (.dataset ks) = false ∧ toBool .null = false ∧
    evalConditionCoerce (.dataset ks) = true ∧
    evalConditionCoerce .null = false := by
  refine ⟨rfl, rfl, ?_, ?_, ?_, ?_, ?_, ?_, ?_, ?_, rfl, rfl, rfl, rfl⟩ <;>
    simp [toBool, evalConditionCoerce, List.length_pos]

/-! ## Property access (evaluator.go) -/

/-- The apostrophe character, built from its code point. -/
def apos : Char := Char.ofNat 39

/-- The possessive separator Go splits property paths on (an apostrophe
followed by `s`). -/
def propSep : String := ⟨[apos, 's']⟩

/-- Model of Go `strings.TrimSpace` on a character list: drop leading
and trailing whitespace. -/
def trimChars (l : List Char) : List Char :=
  ((l.dropWhile Char.isWhitespace).reverse.dropWhile Char.isWhitespace).reverse

/-- Model of Go `strings.TrimSpace`.  (`String.trim` itself is not used
because its implementation does not reduce definitionally.) -/
def strTrim (s : String) : String := ⟨trimChars s.toList⟩

/-- Model of `strings.Split(s, propSep)` on a character list: scan left
to right, splitting at each non-overlapping occurrence of the
two-character separator. -/
def splitPropSep : List Char → List (List Char)
  | [] => [[]]
  | [c] => [[c]]
  | c1 :: c2 :: rest =>
    if c1 = apos ∧ c2 = 's' then [] :: splitPropSep rest
    else
      match splitPropSep (c2 :: rest) with
      | [] => [[c1]]
      | part :: parts => (c1 :: part) :: parts

/-- Model of `strings.Contains(s, propSep)`: whether an apostrophe
immediately followed by `s` occurs. -/
def containsPropSep : List Char → Bool
  | [] => false
  | [_] => false
  | c1 :: c2 :: rest =>
    (c1 = apos && c2 = 's') || containsPropSep (c2 :: rest)

/-- `parsePropertyPath` (evaluator.go lines 229-246): trim, strip one
leading `$`, split on the possessive separator, trim each part, drop
empty parts. -/
def parsePropertyPath (path : String) : List String :=
  let l := trimChars path.toList
  let l := match l with
    | '$' :: t => t
    | _ => l
  ((splitPropSep l).map (fun part => (⟨trimChars part⟩ : String))).filter
    (fun s => s ≠ "")

/-- `isOrdinal` (evaluator.go lines 161-169): only the eleven listed
words count as ordinals — a bare numeric string does not. -/
def ordinalWords : List String :=
  ["1st", "2nd", "3rd", "4th", "5th", "6th", "7th", "8th", "9th", "10th",
   "last"]

def isOrdinal (s : String) : Bool := ordinalWords.contains s

/-- Model of Go `strconv.Atoi`: optional sign, then one or more
digits making up the whole string. -/
def goAtoi? (s : String) : Option Int :=
  let l := s.toList
  let (sign, l) : Int × List Char :=
    match l with
    | '-' :: t => (-1, t)
    | '+' :: t => (1, t)
    | _ => (1, l)
  if l.isEmpty then none
  else if l.all Char.isDigit then some (sign * (digitsToNat l : Int))
  else none

/-- `getArrayLength` (evaluator.go lines 360-367): only a Go
`[]interface{}` value passes `toArray`. -/
def getArrayLength (v : Value) : Except String ℚ :=
  match v with
  | .arr xs => .ok (xs.length : ℚ)
  | _ => .error "operand is not an array"

/-- The 1-based position a word ordinal denotes ("last" is handled
separately by the code). -/
def specOrdinalPos (s : String) : Option ℕ :=
  match s with
  | "1st" => some 1
  | "2nd" => some 2
  | "3rd" => some 3
  | "4th" => some 4
  | "5th" => some 5
  | "6th" => some 6
  | "7th" => some 7
  | "8th" => some 8
  | "9th" => some 9
  | "10th" => some 10
  | _ => none

/-- `getArrayElement` (evaluator.go lines 370-418): empty arrays are an
error; word ordinals and "last" map to fixed indices; any other
position string goes through `strconv.Atoi` as a 1-based index; the
resulting 0-based index is bounds-checked. -/
def getArrayElement (v : Value) (position : String) :
    Except String Value :=
  match v with
  | .arr xs =>
    if xs.length = 0 then .error "array is empty"
    else
      let idx? : Except String Int :=
        match specOrdinalPos position with
        | some pos => .ok ((pos : Int) - 1)
        | none =>
          if position = "last" then .ok ((xs.length : Int) - 1)
          else
            match goAtoi? position with
            | some num => .ok (num - 1)
            | none => .error ("invalid position: " ++ position)
      match idx? with
      | .error e => .error e
      | .ok index =>
        if index < 0 ∨ (xs.length : Int) ≤ index then
          .error ("index out of bounds, array length " ++ toString xs.length)
        else .ok (xs.getD index.toNat .null)
  | _ => .error "operand is not an array"

/-- The property loop of `EvaluatePropertyAccess` (evaluator.go lines
132-155).  A "length" or ordinal segment RETURNS from the loop at once,
so any remaining segments are discarded; every other segment requires
the current value to be a datamap and recurses on the looked-up
value. -/
def propertyWalk (v : Value) : List String → Except String Value
  | [] => .ok v
  | p :: rest =>
    if p = "length" then (getArrayLength v).map Value.num
    else if isOrdinal p then getArrayElement v p
    else
      match v with
      | .datamap m =>
        match mapLookup m p with
        | none => .error ("property " ++ p ++ " does not exist in path")
        | some v2 => propertyWalk v2 rest
      | _ => .error ("cannot access property " ++ p ++ " on non-datamap value")

/-- `EvaluatePropertyAccess` (evaluator.go lines 118-158): parse the
path, require at least two parts, require the base variable to exist,
then walk the remaining segments. -/
def evaluatePropertyAccess (state : List (String × Value))
    (expression : String) : Except String Value :=
  match parsePropertyPath expression with
  | varName :: p :: rest =>
    match mapLookup state varName with
    | none => .error ("variable $" ++ varName ++ " does not exist")
    | some v => propertyWalk v (p :: rest)
  | _ => .error ("invalid property access: " ++ expression)

theorem list_getD_length (a : Value) (t : List Value) :
    (a :: t).getD t.length .null = (a :: t).getLastD .null := by
  induction t generalizing a with
  | nil => rfl
  | cons b t' ih => simpa [List.getD, List.getLastD] using ih b

theorem getArrayElement_1st (a : Value) (t : List Value) :
    getArrayElement (.arr (a :: t)) "1st" = .ok a := by
  simp [getArrayElement, specOrdinalPos]

theorem getArrayElement_last (a : Value) (t : List Value) :
    getArrayElement (.arr (a :: t)) "last" =
      .ok ((a :: t).getLastD .null) := by
  have htn : (((t.length + 1 : ℕ) : Int) - 1).toNat = t.length := by omega
  simp only [getArrayElement]
  rw [show specOrdinalPos "last" = none from rfl]
  simp only [if_true, List.length_cons]
  rw [if_neg (Nat.succ_ne_zero t.length)]
  rw [if_neg (by push_cast; omega)]
  rw [htn, list_getD_length]

theorem specOrdinalPos_mem (s : String) (pos : ℕ)
    (h : specOrdinalPos s = some pos) : s ∈ ordinalWords := by
  unfold specOrdinalPos at h
  split at h <;> first
    | exact Option.noConfusion h
    | (subst_vars; decide)

theorem goAtoi_not_ordinal (s : String) (k : ℤ) (h : goAtoi? s = some k) :
    specOrdinalPos s = none ∧ s ≠ "last" ∧ s ≠ "length" ∧
      isOrdinal s = false := by
  have hw : ∀ w ∈ ("last" :: "length" :: ordinalWords), goAtoi? w = none := by
    decide
  refine ⟨?_, ?_, ?_, ?_⟩
  · cases hs : specOrdinalPos s with
    | none => rfl
    | some pos =>
        have hmem := specOrdinalPos_mem s pos hs
        rw [hw s (by simp [hmem])] at h
        exact Option.noConfusion h
  · rintro rfl
    rw [hw "last" (by simp)] at h
    exact Option.noConfusion h
  · rintro rfl
    rw [hw "length" (by simp)] at h
    exact Option.noConfusion h
  · by_contra hmem
    rw [Bool.not_eq_false] at hmem
    have hm : s ∈ ordinalWords := by simpa [isOrdinal] using hmem
    rw [hw s (by simp [hm])] at h
    exact Option.noConfusion h

theorem getArrayElement_atoi (xs : List Value) (hne : xs ≠ [])
    (s : String) (k : ℤ) (h : goAtoi? s = some k) :
    getArrayElement (.arr xs) s =
      (if k < 1 ∨ (xs.length : ℤ) < k then
        .error ("index out of bounds, array length " ++ toString xs.length)
      else .ok (xs.getD (k - 1).toNat .null)) := by
  obtain ⟨h1, h2, _, _⟩ := goAtoi_not_ordinal s k h
  simp only [getArrayElement, h1, h2, h, if_neg h2, ite_false]
  rw [if_neg (by simpa [List.length_eq_zero] using hne)]
  split_ifs with hA hB <;> first | rfl | omega

/-- Whether a value is a Go `map[string]interface{}` (the type assertion
`currentValue.(map[string]interface{})` in the property loop). -/
def isDatamapValue : Value → Bool
  | .datamap _ => true
  | _ => false

/-- C3 counterexample: the claim says a numeric string segment such as
"3" yields the element at that 1-based position, but `isOrdinal` does
not recognize bare numeric strings, so in a property path the segment
"3" falls through to the datamap branch and errors on an Array instead
of indexing it (the numeric branch of `getArrayElement` is unreachable
from `EvaluatePropertyAccess`). -/
theorem C3_counterexample :
    evaluatePropertyAccess
        [("x", Value.arr [Value.num 10, Value.num 20, Value.num 30])]
        ("$x" ++ propSep ++ " 3") =
      .error "cannot access property 3 on non-datamap value" ∧
    evaluatePropertyAccess
        [("x", Value.arr [Value.num 10, Value.num 20, Value.num 30])]
        ("$x" ++ propSep ++ " 3") ≠ .ok (Value.num 30) := by
  refine ⟨rfl, ?_⟩
  rw [(rfl : evaluatePropertyAccess
      [("x", Value.arr [Value.num 10, Value.num 20, Value.num 30])]
      ("$x" ++ propSep ++ " 3") =
    .error "cannot access property 3 on non-datamap value")]
  exact fun hc => Except.noConfusion hc

/-- C3 amended: on a non-empty Array, the segment "1st" yields the
first element and "last" the final element, and a word ordinal or (in
`getArrayElement`) a numeric 1-based position beyond the array's length
is an out-of-bounds error; but a numeric string segment is not an
ordinal for `EvaluatePropertyAccess` — `propertyWalk` rejects it on an
Array with a non-datamap access error, and only a direct
`getArrayElement` call resolves it as a 1-based index. -/
theorem C3_ordinal_indexing (xs : List Value) (hne : xs ≠ [])
    (s1 s2 : String) (k1 k2 : ℤ) (rest : List String) :
    evaluatePropertyAccess [("x", .arr xs)] ("$x" ++ propSep ++ " 1st") =
      .ok (xs.headD .null) ∧
    evaluatePropertyAccess [("x", .arr xs)] ("$x" ++ propSep ++ " last") =
      .ok (xs.getLastD .null) ∧
    (goAtoi? s1 = some k1 → 1 ≤ k1 → k1 ≤ xs.length →
      getArrayElement (.arr xs) s1 = .ok (xs.getD (k1 - 1).toNat .null)) ∧
    (goAtoi? s2 = some k2 → (xs.length : ℤ) < k2 →
      getArrayElement (.arr xs) s2 =
        .error ("index out of bounds, array length " ++ toString xs.length)) ∧
    (∀ p pos, specOrdinalPos p = some pos → xs.length < pos →
      getArrayElement (.arr xs) p =
        .error ("index out of bounds, array length " ++ toString xs.length)) ∧
    (goAtoi? s1 = some k1 →
      propertyWalk (.arr xs) (s1 :: rest) =
        .error ("cannot access property " ++ s1 ++ " on non-datamap value")) := by
  obtain ⟨a, t, rfl⟩ : ∃ a t, xs = a :: t := by
    cases xs with
    | nil => exact absurd rfl hne
    | cons a t => exact ⟨a, t, rfl⟩
  refine ⟨?_, ?_, ?_, ?_, ?_, ?_⟩
  · exact (show evaluatePropertyAccess [("x", .arr (a :: t))]
        ("$x" ++ propSep ++ " 1st") =
        getArrayElement (.arr (a :: t)) "1st" from rfl).trans
      (getArrayElement_1st a t)
  · exact (show evaluatePropertyAccess [("x", .arr (a :: t))]
        ("$x" ++ propSep ++ " last") =
        getArrayElement (.arr (a :: t)) "last" from rfl).trans
      (getArrayElement_last a t)
  · intro h hk1 hk2
    rw [getArrayElement_atoi (a :: t) hne s1 k1 h]
    rw [if_neg (by push_cast at hk2 ⊢; omega)]
  · intro h hk
    rw [getArrayElement_atoi (a :: t) hne s2 k2 h]
    rw [if_pos (Or.inr hk)]
  · intro p pos hp hlen
    simp only [getArrayElement, hp]
    rw [if_neg (by simpa [List.length_eq_zero] using hne)]
    rw [if_pos (by push_cast; omega)]
  · intro h
    obtain ⟨_, _, h3, h4⟩ := goAtoi_not_ordinal s1 k1 h
    simp [propertyWalk, h3, h4]

/-- C3 witness: on the concrete array [10, 20], "1st" and "last" index
through a property path, "2" indexes and "3" overflows through
`getArrayElement`, "5th" overflows, and "2" as a path segment is a
non-datamap access error. -/
theorem C3_witness :
    evaluatePropertyAccess [("x", Value.arr [Value.num 10, Value.num 20])]
        ("$x" ++ propSep ++ " 1st") = .ok (Value.num 10) ∧
    evaluatePropertyAccess [("x", Value.arr [Value.num 10, Value.num 20])]
        ("$x" ++ propSep ++ " last") = .ok (Value.num 20) ∧
    getArrayElement (Value.arr [Value.num 10, Value.num 20]) "2" =
      .ok (Value.num 20) ∧
    getArrayElement (Value.arr [Value.num 10, Value.num 20]) "3" =
      .error "index out of bounds, array length 2" ∧
    getArrayElement (Value.arr [Value.num 10, Value.num 20]) "5th" =
      .error "index out of bounds, array length 2" ∧
    propertyWalk (Value.arr [Value.num 10, Value.num 20]) ["2"] =
      .error "cannot access property 2 on non-datamap value" := by
  obtain ⟨c1, c2, c3, c4, c5, c6⟩ :=
    C3_ordinal_indexing [Value.num 10, Value.num 20] (by decide)
      "2" "3" 2 3 []
  exact ⟨c1, c2, c3 rfl (by decide) (by decide), c4 rfl (by decide),
    c5 "5th" 5 rfl (by decide), c6 rfl⟩

/-- C4 counterexample: the claim says a segment following an ordinal
segment is applied to that segment's result, but the property loop
RETURNS as soon as it sees a "length" or ordinal segment, discarding
every remaining segment: `$x's 1st's name` on an array of datamaps
yields the whole first element, not its "name" entry. -/
theorem C4_counterexample :
    evaluatePropertyAccess
        [("x", Value.arr [Value.datamap [("name", Value.str "a")]])]
        ("$x" ++ propSep ++ " 1st" ++ propSep ++ " name") =
      .ok (Value.datamap [("name", Value.str "a")]) ∧
    evaluatePropertyAccess
        [("x", Value.arr [Value.datamap [("name", Value.str "a")]])]
        ("$x" ++ propSep ++ " 1st" ++ propSep ++ " name") ≠
      .ok (Value.str "a") := by
  refine ⟨rfl, ?_⟩
  rw [(rfl : evaluatePropertyAccess
      [("x", Value.arr [Value.datamap [("name", Value.str "a")]])]
      ("$x" ++ propSep ++ " 1st" ++ propSep ++ " name") =
    .ok (Value.datamap [("name", Value.str "a")]))]
  intro hc
  have := Except.ok.inj hc
  exact Value.noConfusion this

/-- C4 amended: a non-special segment is resolved against the previous
segment's value — it requires that value to be a Datamap, a missing key
is an error naming the segment, and a non-Datamap value is an error
naming the segment — and an absent base variable is an error; but a
"length" or ordinal segment ends the walk immediately, its result being
returned with all later segments discarded rather than applied. -/
theorem C4_property_path (st m : List (String × Value)) (v : Value)
    (p : String) (rest : List String) (expr varName p0 : String)
    (ps : List String) :
    (p ≠ "length" → isOrdinal p = false →
      (mapLookup m p = none →
        propertyWalk (.datamap m) (p :: rest) =
          .error ("property " ++ p ++ " does not exist in path")) ∧
      (∀ v2, mapLookup m p = some v2 →
        propertyWalk (.datamap m) (p :: rest) = propertyWalk v2 rest) ∧
      (isDatamapValue v = false →
        propertyWalk v (p :: rest) =
          .error ("cannot access property " ++ p ++ " on non-datamap value"))) ∧
    (propertyWalk v ("length" :: rest) = (getArrayLength v).map Value.num) ∧
    (isOrdinal p = true →
      propertyWalk v (p :: rest) = getArrayElement v p) ∧
    (parsePropertyPath expr = varName :: p0 :: ps →
      mapLookup st varName = none →
      evaluatePropertyAccess st expr =
        .error ("variable $" ++ varName ++ " does not exist")) := by
  refine ⟨?_, ?_, ?_, ?_⟩
  · intro hp1 hp2
    refine ⟨?_, ?_, ?_⟩
    · intro hnone
      simp [propertyWalk, hp1, hp2, hnone]
    · intro v2 hsome
      simp [propertyWalk, hp1, hp2, hsome]
    · intro hnd
      cases v <;> simp_all [propertyWalk, isDatamapValue, hp1, hp2]
  · simp [propertyWalk]
  · intro hp
    have hlen : p ≠ "length" := by
      rintro rfl
      exact absurd hp (by decide)
    simp [propertyWalk, hlen, hp]
  · intro hparse habs
    simp [evaluatePropertyAccess, hparse, habs]

/-- C4 witness: concrete datamap lookups succeed and fail as described,
a non-datamap value rejects a plain segment, "length" and ordinal
segments end the walk discarding later segments, and an absent base
variable errors. -/
theorem C4_witness :
    propertyWalk (Value.datamap [("hp", Value.num 7)]) ["mp"] =
      .error "property mp does not exist in path" ∧
    propertyWalk (Value.datamap [("hp", Value.num 7)]) ["hp"] =
      propertyWalk (Value.num 7) [] ∧
    propertyWalk (Value.num 7) ["hp"] =
      .error "cannot access property hp on non-datamap value" ∧
    propertyWalk (Value.arr [Value.num 1, Value.num 2]) ["length", "hp"] =
      (getArrayLength (Value.arr [Value.num 1, Value.num 2])).map
        Value.num ∧
    propertyWalk (Value.arr [Value.num 1, Value.num 2]) ["1st", "hp"] =
      getArrayElement (Value.arr [Value.num 1, Value.num 2]) "1st" ∧
    evaluatePropertyAccess [] ("$x" ++ propSep ++ " hp") =
      .error "variable $x does not exist" := by
  obtain ⟨cA, _, _, cD⟩ :=
    C4_property_path [] [("hp", Value.num 7)] (Value.num 7) "mp" []
      ("$x" ++ propSep ++ " hp") "x" "hp" []
  obtain ⟨c1, _, _⟩ := cA (by decide) (by decide)
  refine ⟨c1 rfl, ?_, ?_, ?_, ?_, cD rfl rfl⟩
  · exact (C4_property_path [] [("hp", Value.num 7)] (Value.num 7) "hp" []
      "" "" "" []).1 (by decide) (by decide) |>.2.1 (Value.num 7) rfl
  · exact (C4_property_path [] [] (Value.num 7) "hp" [] "" "" "" []).1
      (by decide) (by decide) |>.2.2 rfl
  · exact (C4_property_path [] [] (Value.arr [Value.num 1, Value.num 2])
      "" ["hp"] "" "" "" []).2.1
  · exact (C4_property_path [] [] (Value.arr [Value.num 1, Value.num 2])
      "1st" ["hp"] "" "" "" []).2.2.1 rfl

/-! ## Datamap merge and the + operator (evaluator.go) -/

/-- `MergeDatamaps` (evaluator.go lines 707-733): a fresh map receives
every key of the left operand, then every key of the right operand,
right-hand writes overwriting. -/
def mergeDatamaps (leftMap rightMap : List (String × Value)) :
    List (String × Value) :=
  let result := leftMap.foldl (fun acc kv => mapInsert acc kv.1 kv.2) []
  rightMap.foldl (fun acc kv => mapInsert acc kv.1 kv.2) result

/-- The dispatch of `evaluatePlus` (evaluator.go lines 741-779) on the
two already-evaluated operands: a Datamap left operand merges (the
right operand must be a Datamap), an Array left operand concatenates
(the right operand must be an Array), then numeric addition via
`toNumber` (which also accepts numeric strings), then string
concatenation, else a type error. -/
def plusValues (left right : Value) : Except String Value :=
  match left with
  | .datamap lm =>
    match right with
    | .datamap rm => .ok (.datamap (mergeDatamaps lm rm))
    | _ => .error "right operand is not a datamap"
  | .arr la =>
    match right with
    | .arr ra => .ok (.arr (la ++ ra))
    | _ => .error "right operand is not an array"
  | _ =>
    match toNumber left, toNumber right with
    | some ln, some rn => .ok (.num (ln + rn))
    | _, _ =>
      match left, right with
      | .str ls, .str rs => .ok (.str (ls ++ rs))
      | _, _ => .error "cannot add operands"

theorem mapLookup_mapInsert {α : Type} (m : List (String × α))
    (k : String) (v : α) (q : String) :
    mapLookup (mapInsert m k v) q =
      if k = q then some v else mapLookup m q := by
  induction m with
  | nil => simp [mapInsert, mapLookup]
  | cons kv t ih =>
      obtain ⟨k', v'⟩ := kv
      by_cases h : k' = k
      · subst h
        simp only [mapInsert, if_pos rfl, mapLookup]
        by_cases hq : k' = q <;> simp [mapLookup, hq]
      · simp only [mapInsert, if_neg h]
        by_cases hq : k' = q
        · subst hq
          rw [if_neg (fun hkq : k = k' => h hkq.symm)]
          simp [mapLookup]
        · simp only [mapLookup, if_neg hq, ih]

theorem mapLookup_eq_none_of_not_mem {α : Type} (m : List (String × α))
    (q : String) (h : q ∉ mapKeys m) : mapLookup m q = none := by
  induction m with
  | nil => rfl
  | cons kv t ih =>
      obtain ⟨k', v'⟩ := kv
      rw [show mapKeys ((k', v') :: t) = k' :: mapKeys t from rfl,
        List.mem_cons, not_or] at h
      simp only [mapLookup, if_neg (fun hk : k' = q => h.1 hk.symm)]
      exact ih h.2

theorem lookup_foldl_insert (m acc : List (String × Value))
    (hnd : (mapKeys m).Nodup) (q : String) :
    mapLookup (m.foldl (fun a kv => mapInsert a kv.1 kv.2) acc) q =
      (mapLookup m q <|> mapLookup acc q) := by
  induction m generalizing acc with
  | nil => simp [mapLookup]
  | cons kv t ih =>
      obtain ⟨k, v⟩ := kv
      simp only [mapKeys, List.map_cons, List.nodup_cons] at hnd
      rw [List.foldl_cons, ih _ (by simpa [mapKeys] using hnd.2)]
      rw [mapLookup_mapInsert]
      show (mapLookup t q <|> if k = q then some v else mapLookup acc q) =
        ((if k = q then some v else mapLookup t q) <|> mapLookup acc q)
      by_cases hq : k = q
      · subst hq
        rw [mapLookup_eq_none_of_not_mem t k (by simpa [mapKeys] using hnd.1)]
        simp
      · rw [if_neg hq, if_neg hq]

/-- C7: merging two Datamaps with the `+` operator yields a Datamap
whose key set is the union of both key sets, and on keys present in
both the right operand's value wins.  Stated on Datamaps with unique
keys, which is what Go maps guarantee. -/
theorem C7_merge_bias (A B : List (String × Value))
    (hA : (mapKeys A).Nodup) (hB : (mapKeys B).Nodup) (q : String) :
    plusValues (.datamap A) (.datamap B) =
      .ok (.datamap (mergeDatamaps A B)) ∧
    mapLookup (mergeDatamaps A B) q =
      (mapLookup B q <|> mapLookup A q) ∧
    ((mapLookup (mergeDatamaps A B) q).isSome ↔
      (mapLookup A q).isSome ∨ (mapLookup B q).isSome) := by
  have hkey : mapLookup (mergeDatamaps A B) q =
      (mapLookup B q <|> mapLookup A q) := by
    unfold mergeDatamaps
    rw [lookup_foldl_insert B _ hB, lookup_foldl_insert A _ hA]
    cases mapLookup B q <;> cases mapLookup A q <;> simp [mapLookup]
  refine ⟨rfl, hkey, ?_⟩
  rw [hkey]
  cases mapLookup B q <;> cases mapLookup A q <;> simp

/-- C7 witness: merging `{hp: 100}` with `{hp: 150, mp: 50}` keeps
every key and takes the right operand's value on the shared key. -/
theorem C7_witness :
    plusValues (.datamap [("hp", Value.num 100)])
        (.datamap [("hp", Value.num 150), ("mp", Value.num 50)]) =
      .ok (.datamap (mergeDatamaps [("hp", Value.num 100)]
        [("hp", Value.num 150), ("mp", Value.num 50)])) ∧
    mapLookup (mergeDatamaps [("hp", Value.num 100)]
        [("hp", Value.num 150), ("mp", Value.num 50)]) "hp" =
      some (Value.num 150) := by
  obtain ⟨h1, h2, _⟩ := C7_merge_bias [("hp", Value.num 100)]
    [("hp", Value.num 150), ("mp", Value.num 50)]
    (by decide) (by decide) "hp"
  exact ⟨h1, by rw [h2]; rfl⟩

/-! ## Put and Move (evaluator.go) -/

/-- Model of `strings.TrimPrefix(s, "$")`: strip one leading dollar
sign when present. -/
def trimDollar (s : String) : String :=
  match s.toList with
  | '$' :: t => ⟨t⟩
  | _ => s

/-- The property loop of `SetProperty` (evaluator.go lines 200-223) as
a functional update on the base datamap: the final segment is written,
missing intermediate segments are auto-created as empty datamaps, a
non-datamap intermediate is an error.  (The Go code mutates maps in
place, so on an error partway the already auto-created intermediates
persist; no claim observes a failed `SetProperty`, so the error path
discards them here.) -/
def setPropsWalk (m : List (String × Value)) (props : List String)
    (value : Value) : Except String (List (String × Value)) :=
  match props with
  | [] => .ok m
  | [p] => .ok (mapInsert m p value)
  | p :: rest =>
    let next :=
      match mapLookup m p with
      | none => Value.datamap []
      | some v => v
    match next with
    | .datamap m2 =>
      match setPropsWalk m2 rest value with
      | .error e => .error e
      | .ok m2' => .ok (mapInsert m p (.datamap m2'))
    | _ => .error ("cannot set nested property " ++ p ++ ", not a datamap")

/-- `SetProperty` (evaluator.go lines 176-226): the path needs at least
two parts, the base variable must already exist and be a datamap, then
the walk writes through it. -/
def setPropertyGo (state : List (String × Value)) (varPath : String)
    (value : Value) : Except String (List (String × Value)) :=
  match parsePropertyPath varPath with
  | varName :: p :: props =>
    match mapLookup state varName with
    | none =>
      .error ("cannot set property on non-existent variable $" ++ varName)
    | some baseValue =>
      match baseValue with
      | .datamap m =>
        match setPropsWalk m (p :: props) value with
        | .error e => .error e
        | .ok m' => .ok (mapInsert state varName (.datamap m'))
      | _ =>
        .error ("cannot set property " ++ p ++ " on non-datamap variable $" ++
          varName)
  | _ => .error ("invalid property path: " ++ varPath)

/-- `Put` (evaluator.go lines 290-298): a target containing the
possessive separator goes through `SetProperty`, otherwise the bare
variable (sans `$`) is written directly. -/
def put (state : List (String × Value)) (value : Value) (target : String) :
    Except String (List (String × Value)) :=
  if containsPropSep target.toList then setPropertyGo state target value
  else .ok (mapInsert state (trimDollar target) value)

/-- `Move` (evaluator.go lines 305-318): read the source variable
(error if undeclared), `Put` the value into the target, then write the
Number 0 over the source variable. -/
def move (state : List (String × Value)) (source dest : String) :
    Except String (List (String × Value)) :=
  let sourceName := trimDollar source
  match mapLookup state sourceName with
  | none => .error ("source variable $" ++ sourceName ++ " does not exist")
  | some value =>
    match put state value dest with
    | .error e => .error e
    | .ok st1 => .ok (mapInsert st1 sourceName (.num 0))

/-- C10: moving a variable onto itself succeeds and destroys the moved
value — the `Put` into the target happens first and the source is then
reset to the Number 0, so the variable reads 0 afterwards; in general
the source variable of every successful `Move` reads 0, target aliasing
or not.  (A variable name here is an identifier without the possessive
separator, as Harlowe names are.) -/
theorem C10_move_self (st : List (String × Value)) (v src : String)
    (val : Value) (hv : mapLookup st v = some val)
    (hsrc : trimDollar src = v)
    (hnp : containsPropSep src.toList = false) :
    (∃ st', move st src src = .ok st' ∧
      mapLookup st' v = some (.num 0)) ∧
    (∀ source dest st', move st source dest = .ok st' →
      mapLookup st' (trimDollar source) = some (.num 0)) := by
  constructor
  · refine ⟨mapInsert (mapInsert st v val) v (.num 0), ?_, ?_⟩
    · simp only [move, hsrc, hv, put, hnp, Bool.false_eq_true, if_false]
    · rw [mapLookup_mapInsert]
      simp
  · intro source dest st' hmv
    simp only [move] at hmv
    split at hmv
    · exact Except.noConfusion hmv
    · split at hmv
      · exact Except.noConfusion hmv
      · have := Except.ok.inj hmv
        rw [← this, mapLookup_mapInsert]
        simp

/-- C10 witness: with state `{hp: 5}`, `Move $hp into $hp` succeeds and
leaves `hp = 0`. -/
theorem C10_witness :
    (∃ st', move [("hp", Value.num 5)] "$hp" "$hp" = .ok st' ∧
      mapLookup st' "hp" = some (.num 0)) ∧
    (∀ source dest st',
      move [("hp", Value.num 5)] source dest = .ok st' →
      mapLookup st' (trimDollar source) = some (.num 0)) :=
  C10_move_self [("hp", Value.num 5)] "hp" "$hp" (Value.num 5)
    rfl rfl rfl

/-! ## Literal parser (literals.go) -/

/-- Model of `strings.HasPrefix(s, pre)`. -/
def strStartsWith (s pre : String) : Bool :=
  pre.toList.isPrefixOf s.toList

/-- Model of `strings.HasSuffix(s, suf)`. -/
def strEndsWith (s suf : String) : Bool :=
  suf.toList.reverse.isPrefixOf s.toList.reverse

/-- Model of ``strings.Trim(s, `"`)``: strip every leading and trailing
double-quote character. -/
def trimQuotes (s : String) : String :=
  ⟨((s.toList.dropWhile (· = '"')).reverse.dropWhile (· = '"')).reverse⟩

/-- `extractMacroContent` (literals.go lines 181-197): the text between
the first colon and the last closing parenthesis, trimmed; empty when
either is missing or they are out of order.  (Go indexes bytes; the
claims' inputs are ASCII, where byte and character indices agree.) -/
def extractMacroContent (s : String) : String :=
  let l := s.toList
  match l.findIdx? (· = ':') with
  | none => ""
  | some colonIdx =>
    match l.reverse.findIdx? (· = ')') with
    | none => ""
    | some revIdx =>
      let endIdx := l.length - 1 - revIdx
      let startIdx := colonIdx + 1
      if endIdx ≤ startIdx then ""
      else ⟨trimChars ((l.drop startIdx).take (endIdx - startIdx))⟩

/-- The character loop of `smartSplitComma` (literals.go lines
200-268): split on commas at parenthesis depth 0 outside strings, an
escape character suppressing interpretation of the next character;
trimmed non-empty pieces are kept. -/
def smartSplitGo : List Char → List Char → Int → Bool → Bool →
    List String → List String
  | [], current, _, _, _, acc =>
    let trimmed := trimChars current.reverse
    if trimmed.isEmpty then acc else acc ++ [⟨trimmed⟩]
  | c :: rest, current, depth, inString, escapeNext, acc =>
    if escapeNext then
      smartSplitGo rest (c :: current) depth inString false acc
    else if c = '\\' then
      smartSplitGo rest (c :: current) depth inString true acc
    else if c = '"' then
      smartSplitGo rest (c :: current) depth (!inString) escapeNext acc
    else if inString then
      smartSplitGo rest (c :: current) depth inString escapeNext acc
    else if c = '(' then
      smartSplitGo rest (c :: current) (depth + 1) inString escapeNext acc
    else if c = ')' then
      smartSplitGo rest (c :: current) (depth - 1) inString escapeNext acc
    else if c = ',' ∧ depth = 0 then
      let trimmed := trimChars current.reverse
      if trimmed.isEmpty then smartSplitGo rest [] depth inString escapeNext acc
      else smartSplitGo rest [] depth inString escapeNext (acc ++ [⟨trimmed⟩])
    else
      smartSplitGo rest (c :: current) depth inString escapeNext acc

/-- `smartSplitComma` (literals.go lines 200-268). -/
def smartSplitComma (content : String) : List String :=
  smartSplitGo content.toList [] 0 false false []

/-- Lexicographic comparison of character lists by code point, kept as
a plain Bool computation so that it evaluates inside the kernel. -/
def charListLt : List Char → List Char → Bool
  | [], [] => false
  | [], _ :: _ => true
  | _ :: _, [] => false
  | a :: as, b :: bs =>
    if a.toNat < b.toNat then true
    else if b.toNat < a.toNat then false
    else charListLt as bs

/-- Lexicographic string comparison by code point: the order `fmt`
sorts map keys in, and the canonical order of a modelled
`map[string]bool`. -/
def strLt (a b : String) : Bool := charListLt a.toList b.toList

/-- Insertion into the canonical (sorted, duplicate-free) key list
modelling a Go `map[string]bool`; inserting a present key is the
idempotent `result[key] = true`. -/
def datasetInsert (keys : List String) (k : String) : List String :=
  match keys with
  | [] => [k]
  | x :: rest =>
    if k = x then x :: rest
    else if strLt k x then k :: x :: rest
    else x :: datasetInsert rest k

theorem charListLt_irrefl (l : List Char) : charListLt l l = false := by
  induction l with
  | nil => rfl
  | cons a as ih => simp [charListLt, ih]

theorem charListLt_trans {a b c : List Char}
    (hab : charListLt a b = true) (hbc : charListLt b c = true) :
    charListLt a c = true := by
  induction a generalizing b c with
  | nil =>
      cases b with
      | nil => exact absurd hab (by simp [charListLt])
      | cons bh bt =>
        cases c with
        | nil => exact absurd hbc (by simp [charListLt])
        | cons ch ct => rfl
  | cons ah as iha =>
      cases b with
      | nil => exact absurd hab (by simp [charListLt])
      | cons bh bt =>
        cases c with
        | nil => exact absurd hbc (by simp [charListLt])
        | cons ch ct =>
          simp only [charListLt] at hab hbc ⊢
          split_ifs at hab hbc ⊢ <;>
            first
              | rfl
              | exact iha hab hbc
              | omega
              | exact absurd hab (by simp)
              | exact absurd hbc (by simp)

theorem char_toNat_inj {a b : Char} (h : a.toNat = b.toNat) : a = b :=
  Char.ext (UInt32.ext h)

theorem charListLt_total {a b : List Char} (hne : a ≠ b)
    (hf : charListLt a b = false) : charListLt b a = true := by
  induction a generalizing b with
  | nil =>
      cases b with
      | nil => exact absurd rfl hne
      | cons bh bt => exact absurd hf (by simp [charListLt])
  | cons ah as iha =>
      cases b with
      | nil => rfl
      | cons bh bt =>
        simp only [charListLt] at hf ⊢
        by_cases h1 : ah.toNat < bh.toNat
        · exact absurd hf (by simp [h1])
        · by_cases h2 : bh.toNat < ah.toNat
          · simp [h2]
          · have hhd : ah = bh := char_toNat_inj (by omega)
            subst hhd
            have htl : as ≠ bt := fun he => hne (by rw [he])
            rw [if_neg h1, if_neg h1] at hf ⊢
            exact iha htl hf

theorem strLt_irrefl (s : String) : strLt s s = false :=
  charListLt_irrefl s.toList

theorem strLt_trans {a b c : String} (hab : strLt a b = true)
    (hbc : strLt b c = true) : strLt a c = true :=
  charListLt_trans hab hbc

theorem strLt_total {a b : String} (hne : a ≠ b)
    (hf : strLt a b = false) : strLt b a = true :=
  charListLt_total (fun he => hne (congrArg String.mk he)) hf

theorem sorted_strLt_nodup (l : List String)
    (h : l.Pairwise (fun a b => strLt a b = true)) : l.Nodup := by
  induction l with
  | nil => exact List.nodup_nil
  | cons x rest ih =>
      rw [List.pairwise_cons] at h
      rw [List.nodup_cons]
      refine ⟨fun hmem => ?_, ih h.2⟩
      have := h.1 x hmem
      rw [strLt_irrefl] at this
      exact Bool.noConfusion this

def joinSpace : List String → String
  | [] => ""
  | [s] => s
  | s :: rest => s ++ " " ++ joinSpace rest

/-- Model of `fmt.Sprintf("%v", value)` up to nesting depth `fuel`:
strings print verbatim, integral floats print without a decimal point,
booleans as `true`/`false`, slices as `[a b]`, maps as `map[k:v]` with
keys in sorted order (as `fmt` sorts them; our canonical maps are used
sorted in every witness), nil as `<nil>`.  Non-integral floats print in
Go's shortest decimal form, approximated here (no claim renders one);
the fuel bounds nesting depth so the function stays structurally
recursive. -/
def renderF : ℕ → Value → String
  | 0, _ => ""
  | fuel + 1, v =>
    match v with
    | .str s => s
    | .num q => if q.den = 1 then toString q.num else toString q
    | .boolean b => if b then "true" else "false"
    | .arr xs => "[" ++ joinSpace (xs.map (renderF fuel)) ++ "]"
    | .datamap m =>
      "map[" ++
        joinSpace (m.map (fun kv => kv.1 ++ ":" ++ renderF fuel kv.2)) ++ "]"
    | .dataset ks => "map[" ++ joinSpace (ks.map (· ++ ":true")) ++ "]"
    | .null => "<nil>"

/-- The element loop of `ParseArrayLiteral` (literals.go lines 70-99),
parametrized by the recursive element parser: a failed element parse
degrades to the raw trimmed text. -/
def arrayFromElems (pv : String → Except String Value) (expr : String) :
    List Value :=
  let content := extractMacroContent expr
  if content = "" then []
  else
    (smartSplitComma content).foldl
      (fun acc elem =>
        let e := strTrim elem
        if e = "" then acc
        else
          acc ++ [match pv e with
                  | .ok v => v
                  | .error _ => .str e]) []

/-- The pair loop of `ParseDatamapLiteral` (literals.go lines 115-136):
keys are stripped of quotes and used verbatim, values are parsed with
raw-text fallback, an odd element count is an error. -/
def datamapPairsGo (pv : String → Except String Value) :
    List String → List (String × Value) →
    Except String (List (String × Value))
  | [], acc => .ok acc
  | [_], _ => .error "datamap has odd number of elements"
  | kExpr :: vExpr :: rest, acc =>
    let key := trimQuotes (strTrim kExpr)
    let value :=
      match pv (strTrim vExpr) with
      | .ok v => v
      | .error _ => .str (strTrim vExpr)
    datamapPairsGo pv rest (mapInsert acc key value)

/-- `ParseDatamapLiteral` (literals.go lines 105-138), parametrized by
the element parser. -/
def datamapFromElems (pv : String → Except String Value) (expr : String) :
    Except String (List (String × Value)) :=
  let content := extractMacroContent expr
  if content = "" then .ok []
  else datamapPairsGo pv (smartSplitComma content) []

/-- One iteration of the element loop of `ParseDatasetLiteral`
(literals.go lines 154-169): a blank element is skipped, otherwise the
parsed element (raw-text fallback on failure) is rendered with `%v` by
`rf` and the rendered form is written into the `map[string]bool`. -/
def datasetStep (pv : String → Except String Value) (rf : Value → String)
    (keys : List String) (elem : String) : List String :=
  if strTrim elem = "" then keys
  else
    datasetInsert keys (rf (match pv (strTrim elem) with
                            | .ok v => v
                            | .error _ => .str (strTrim elem)))

/-- The element loop of `ParseDatasetLiteral` (literals.go lines
144-172). -/
def datasetKeysFromElems (pv : String → Except String Value)
    (rf : Value → String) (expr : String) : List String :=
  let content := extractMacroContent expr
  if content = "" then []
  else (smartSplitComma content).foldl (datasetStep pv rf) []

/-- The two evaluator callbacks `ParseValue` may fall through to:
`EvaluatePropertyAccess` for possessive `$`-expressions and
`EvaluateExpression` for everything else.  The literal parser treats
them as the external collaborators they are in literals.go. -/
structure MiniEval where
  evalExpr : String → Except String Value
  propAccess : String → Except String Value

/-- `ParseValue` (literals.go lines 15-64), structurally recursive on a
fuel bound (the Go recursion terminates because each literal's elements
are strictly shorter than the literal): the three literal forms first,
then quoted strings (`strings.Trim` of all quote characters), numbers,
booleans, `$`-variables (property paths through `EvaluatePropertyAccess`,
plain ones through `EvaluateExpression`), and finally arbitrary
expressions through `EvaluateExpression`. -/
def parseValue (ev : MiniEval) : ℕ → String → Except String Value
  | 0, _ => .error "recursion limit reached"
  | fuel + 1, expression =>
    let expr := strTrim expression
    if strStartsWith expr "(a:" || strStartsWith expr "(array:" then
      .ok (.arr (arrayFromElems (parseValue ev fuel) expr))
    else if strStartsWith expr "(dm:" || strStartsWith expr "(datamap:" then
      match datamapFromElems (parseValue ev fuel) expr with
      | .error e => .error e
      | .ok m => .ok (.datamap m)
    else if strStartsWith expr "(ds:" || strStartsWith expr "(dataset:" then
      .ok (.dataset
        (datasetKeysFromElems (parseValue ev fuel) (renderF fuel) expr))
    else if strStartsWith expr "\"" && strEndsWith expr "\"" then
      .ok (.str (trimQuotes expr))
    else
      match parseNumber? expr with
      | some n => .ok (.num n)
      | none =>
        if expr = "true" then .ok (.boolean true)
        else if expr = "false" then .ok (.boolean false)
        else if strStartsWith expr "$" then
          if containsPropSep expr.toList then ev.propAccess expr
          else ev.evalExpr expr
        else ev.evalExpr expr

/-- `ParseDatasetLiteral` (literals.go lines 144-172) with the
recursive element parser instantiated at the given fuel. -/
def parseDatasetLiteral (ev : MiniEval) (fuel : ℕ) (expr : String) :
    Except String Value :=
  .ok (.dataset
    (datasetKeysFromElems (parseValue ev fuel) (renderF fuel) expr))

/-- An evaluator stub for literal-only inputs: any fall-through to the
expression evaluator is an error (which `ParseValue`'s callers turn
into the raw-text fallback). -/
def noEval : MiniEval :=
  ⟨fun e => .error ("cannot evaluate expression: " ++ e),
   fun e => .error ("invalid property access: " ++ e)⟩

/-- The rendered string form one element of a dataset literal body
contributes, if any: the specification-side counterpart of
`datasetStep`. -/
def datasetElemKey? (pv : String → Except String Value)
    (rf : Value → String) (elem : String) : Option String :=
  if strTrim elem = "" then none
  else
    some (rf (match pv (strTrim elem) with
              | .ok v => v
              | .error _ => .str (strTrim elem)))

/-- The rendered string forms of the retained elements of a dataset
literal body, in source order. -/
def datasetRenderedElems (ev : MiniEval) (fuel : ℕ) (expr : String) :
    List String :=
  let content := extractMacroContent expr
  if content = "" then []
  else
    (smartSplitComma content).filterMap
      (datasetElemKey? (parseValue ev fuel) (renderF fuel))

theorem mem_datasetInsert (keys : List String) (k s : String) :
    s ∈ datasetInsert keys k ↔ s = k ∨ s ∈ keys := by
  induction keys with
  | nil => simp [datasetInsert]
  | cons x rest ih =>
      by_cases h1 : k = x
      · subst h1
        rw [datasetInsert, if_pos rfl]
        simp only [List.mem_cons] <;> tauto
      · rw [datasetInsert, if_neg h1]
        by_cases h2 : strLt k x = true
        · rw [if_pos h2]
          simp only [List.mem_cons] <;> tauto
        · rw [if_neg h2]
          simp only [List.mem_cons, ih] <;> tauto

theorem sorted_datasetInsert (keys : List String) (k : String)
    (h : keys.Pairwise (fun a b => strLt a b = true)) :
    (datasetInsert keys k).Pairwise (fun a b => strLt a b = true) := by
  induction keys with
  | nil => simp [datasetInsert]
  | cons x rest ih =>
      rw [List.pairwise_cons] at h
      by_cases h1 : k = x
      · subst h1
        rw [datasetInsert, if_pos rfl, List.pairwise_cons]
        exact h
      · rw [datasetInsert, if_neg h1]
        by_cases h2 : strLt k x = true
        · rw [if_pos h2, List.pairwise_cons]
          refine ⟨?_, by rw [List.pairwise_cons]; exact h⟩
          intro b hb
          rcases List.mem_cons.mp hb with rfl | hb
          · exact h2
          · exact strLt_trans h2 (h.1 b hb)
        · rw [if_neg h2, List.pairwise_cons]
          have hxk : strLt x k = true :=
            strLt_total h1 (by revert h2; cases strLt k x <;> simp)
          refine ⟨?_, ih h.2⟩
          intro b hb
          rcases (mem_datasetInsert rest k b).mp hb with rfl | hb
          · exact hxk
          · exact h.1 b hb

theorem dataset_fold_spec (pv : String → Except String Value)
    (rf : Value → String) (elems : List String) :
    ∀ keys0 : List String,
      keys0.Pairwise (fun a b => strLt a b = true) →
      (elems.foldl (datasetStep pv rf) keys0).Pairwise
        (fun a b => strLt a b = true) ∧
      ∀ s, s ∈ elems.foldl (datasetStep pv rf) keys0 ↔
        s ∈ keys0 ∨ s ∈ elems.filterMap (datasetElemKey? pv rf) := by
  induction elems with
  | nil => intro keys0 h0; exact ⟨h0, by simp⟩
  | cons elem rest ih =>
      intro keys0 h0
      by_cases he : strTrim elem = ""
      · rw [List.foldl_cons,
          show datasetStep pv rf keys0 elem = keys0 from
            by rw [datasetStep, if_pos he],
          List.filterMap_cons_none
            (by rw [datasetElemKey?, if_pos he] : _ = none)]
        exact ih keys0 h0
      · rw [List.foldl_cons,
          show datasetStep pv rf keys0 elem =
              datasetInsert keys0 (rf (match pv (strTrim elem) with
                                       | .ok v => v
                                       | .error _ => .str (strTrim elem)))
            from by rw [datasetStep, if_neg he],
          List.filterMap_cons_some
            (by rw [datasetElemKey?, if_neg he] : _ = some _)]
        obtain ⟨hs, hm⟩ := ih
          (datasetInsert keys0 (rf (match pv (strTrim elem) with
                                    | .ok v => v
                                    | .error _ => .str (strTrim elem))))
          (sorted_datasetInsert _ _ h0)
        refine ⟨hs, fun s => ?_⟩
        rw [hm s, mem_datasetInsert]
        simp only [List.mem_cons]
        tauto

/-- C8 counterexample: the claim says retained elements keep their
first-seen order in the resulting Dataset, but the Dataset is a Go
`map[string]bool`, which holds an unordered key set (canonically the
sorted key list here): the literal whose elements appear in the order
"b", "a" yields the key set `{a, b}`, not a list in first-seen order
`["b", "a"]`. -/
theorem C8_counterexample :
    parseDatasetLiteral noEval 2 "(ds: \"b\", \"a\")" =
      .ok (Value.dataset ["a", "b"]) ∧
    parseDatasetLiteral noEval 2 "(ds: \"b\", \"a\")" ≠
      .ok (Value.dataset ["b", "a"]) := by
  have h1 : parseDatasetLiteral noEval 2 "(ds: \"b\", \"a\")" =
      .ok (Value.dataset ["a", "b"]) := by rfl
  refine ⟨h1, ?_⟩
  rw [h1]
  intro hc
  exact absurd (Value.dataset.inj (Except.ok.inj hc)) (by decide)

/-- C8 amended: every dataset literal body parses to a Dataset whose
key set is exactly the set of rendered string forms of its parsed
elements — an element whose rendered form equals an earlier element's
is discarded, each retained form appearing exactly once — but the
Dataset is an unordered Go map and preserves no element order (its
canonical model is the code-point-sorted key list). -/
theorem C8_dataset_dedup (ev : MiniEval) (fuel : ℕ) (expr s : String) :
    ∃ ks, parseDatasetLiteral ev fuel expr = .ok (.dataset ks) ∧
      (s ∈ ks ↔ s ∈ datasetRenderedElems ev fuel expr) ∧
      ks.Nodup ∧ ks.Pairwise (fun a b => strLt a b = true) := by
  refine ⟨datasetKeysFromElems (parseValue ev fuel) (renderF fuel) expr,
    rfl, ?_⟩
  simp only [datasetKeysFromElems, datasetRenderedElems]
  by_cases hc : extractMacroContent expr = ""
  · simp [hc]
  · rw [if_neg hc, if_neg hc]
    obtain ⟨hs, hm⟩ := dataset_fold_spec (parseValue ev fuel) (renderF fuel)
      (smartSplitComma (extractMacroContent expr)) [] (by simp)
    exact ⟨by rw [hm s]; simp, sorted_strLt_nodup _ hs, hs⟩

/-- C8 witness: in `(ds: "b", "a", "b", 7)` the second "b" is
discarded; the key set is `{7, a, b}`, duplicate-free and canonically
sorted, and membership matches the rendered forms of the elements. -/
theorem C8_witness :
    ∃ ks, parseDatasetLiteral noEval 3 "(ds: \"b\", \"a\", \"b\", 7)" =
        .ok (.dataset ks) ∧
      ("b" ∈ ks ↔
        "b" ∈ datasetRenderedElems noEval 3
          "(ds: \"b\", \"a\", \"b\", 7)") ∧
      ks.Nodup ∧ ks.Pairwise (fun a b => strLt a b = true) :=
  C8_dataset_dedup noEval 3 "(ds: \"b\", \"a\", \"b\", 7)" "b"

/-! ## Path simulator (the first PathSimulator of src/unnamed/part_003) -/

/-- `parser.Passage` as the simulator consumes it. -/
structure Passage where
  title : String
  tags : List String
  content : String
  deriving Repr, DecidableEq, Inhabited

/-- `parser.Story`: a map of passage titles to passages plus a format
name. -/
structure Story where
  passages : List (String × Passage)
  format : String
  deriving Repr

/-- The slice of the `formats.StoryFormat` interface the simulator
calls: `ParseLinks`, and `ProcessPassageContent` against an evaluator
freshly seeded with the running state and the visited/history/current
context (`SetVisitedPassages`, `SetHistory`, `SetCurrentPassage`); the
processing error, if any, is only logged by the simulator, so the
capability is modelled as the resulting evaluator state. -/
structure StoryFormat where
  parseLinks : String → List String
  processPassageContent : String → List (String × Value) →
    List (String × ℕ) → List String → String → List (String × Value)

/-- `VariableChange` (part_003): `previous` is nil for a newly
introduced variable and `delta` is set only when both values are
numeric. -/
structure VariableChange where
  name : String
  previous : Option Value
  current : Value
  delta : Option ℚ
  deriving Repr, DecidableEq

/-- `StepResult` (part_003). -/
structure StepResult where
  passageTitle : String
  passageIndex : ℕ
  changes : List (String × VariableChange)
  warnings : List String
  availableLinks : List String
  deriving Repr, DecidableEq

/-- `SimulationResult` (part_003). -/
structure SimulationResult where
  success : Bool
  path : List String
  steps : List StepResult
  finalState : List (String × Value)
  errors : List String
  totalWarnings : ℕ
  deriving Repr, DecidableEq

/-- The second loop of `ValidatePath` (part_003 lines 74-99): each
consecutive pair whose earlier passage exists is flagged when the later
title is not among the earlier passage's outbound links.  (The Go
messages put quote marks around names and list the available links;
the quoting and the link list are omitted from the message text
here.) -/
def validateLinks (fmt : StoryFormat) (story : Story) :
    ℕ → List String → List String
  | _, [] => []
  | _, [_] => []
  | i, cur :: next :: rest =>
    let tailErrs := validateLinks fmt story (i + 1) (next :: rest)
    match mapLookup story.passages cur with
    | none => tailErrs
    | some passage =>
      if (fmt.parseLinks passage.content).contains next then tailErrs
      else
        (s!"Step {i + 1}-{i + 2}: {cur} non ha un link diretto a {next}")
          :: tailErrs

/-- `ValidatePath` (part_003 lines 65-102): unknown-passage errors for
every title, in order, followed by connectivity errors for every
consecutive pair; never mutates state. -/
def validatePath (fmt : StoryFormat) (story : Story) (path : List String) :
    List String :=
  (path.enum.filterMap
    (fun iv =>
      if (mapLookup story.passages iv.2).isSome then none
      else some s!"Step {iv.1 + 1}: passaggio {iv.2} non esiste"))
  ++ validateLinks fmt story 0 path

/-- The per-variable change record of `SimulatePath` (part_003 lines
166-191): `previous` is the pre-step value when the variable existed
(nil otherwise), and `delta` is current − previous exactly when both
convert to numbers. -/
def mkChange (stateBefore : List (String × Value)) (name : String)
    (newValue : Value) : VariableChange :=
  match mapLookup stateBefore name with
  | some prev =>
    { name := name, previous := some prev, current := newValue,
      delta :=
        match simToNumber prev, simToNumber newValue with
        | some pn, some cn => some (cn - pn)
        | _, _ => none }
  | none => { name := name, previous := none, current := newValue,
              delta := none }

/-- `generateWarnings` (part_003 lines 215-231): health-like variables
at or below zero, or at or below the critical threshold 20.  (The Go
messages carry an emoji and the value; the message text is
abbreviated.) -/
def generateWarnings (changes : List (String × VariableChange)) :
    List String :=
  changes.filterMap
    (fun kv =>
      if kv.1 = "vita" ∨ kv.1 = "health" ∨ kv.1 = "hp" then
        match simToNumber kv.2.current with
        | some val =>
          if val ≤ 0 then some (s!"{kv.1} è a 0 o negativo")
          else if val ≤ 20 then some (s!"{kv.1} è sotto soglia critica")
          else none
        | none => none
      else none)

/-- The passage loop of `SimulatePath` (part_003 lines 129-198):
skipped missing passages, visit counting, history, a snapshot of the
state before processing, processing through the format (the evaluator
state being the running state), per-variable changes over the post-step
state, warnings, and the running state advanced to the post-step state.
Returns the steps, the final state and the warning total.  (Go's state
snapshot is a shallow map copy and the evaluator mutates the very map
it was seeded with; here processing returns the new state
functionally, which agrees on everything the claims observe.) -/
def simLoop (fmt : StoryFormat) (story : Story) :
    List String → ℕ → List (String × ℕ) → List String →
    List (String × Value) → List StepResult × List (String × Value) × ℕ
  | [], _, _, _, st => ([], st, 0)
  | title :: rest, i, visited, history, currentState =>
    match mapLookup story.passages title with
    | none => simLoop fmt story rest (i + 1) visited history currentState
    | some passage =>
      let visited' :=
        mapInsert visited title ((mapLookup visited title).getD 0 + 1)
      let history' := history ++ [title]
      let stateBefore := currentState
      let newState := fmt.processPassageContent passage.content
        currentState visited' history' title
      let changes := newState.map (fun kv => (kv.1, mkChange stateBefore kv.1 kv.2))
      let warnings := generateWarnings changes
      let stepResult : StepResult :=
        { passageTitle := title, passageIndex := i + 1, changes := changes,
          warnings := warnings,
          availableLinks := fmt.parseLinks passage.content }
      let res := simLoop fmt story rest (i + 1) visited' history' newState
      (stepResult :: res.1, res.2.1, warnings.length + res.2.2)

/-- `SimulatePath` (part_003 lines 105-203): a failed validation
returns immediately with the collected errors and no execution;
otherwise visited counts and history are reset and the passage loop
runs from an empty state. -/
def simulatePath (fmt : StoryFormat) (story : Story) (path : List String) :
    SimulationResult :=
  let validationErrors := validatePath fmt story path
  if validationErrors ≠ [] then
    { success := false, path := path, steps := [], finalState := [],
      errors := validationErrors, totalWarnings := 0 }
  else
    let res := simLoop fmt story path 0 [] [] []
    { success := true, path := path, steps := res.1,
      finalState := res.2.1, errors := [], totalWarnings := res.2.2 }

/-- The BFS loop of `GetSuggestedPaths` (part_003 lines 251-286), on an
explicit fuel (the Go loop terminates because every queue entry is at
most `maxDepth` long; every claim about it is proved for every fuel):
stop on an empty queue or once 10 paths are collected; a path at
`maxDepth` or more PASSAGES is collected as is; a dead end (no
outbound links) is collected; a missing passage is dropped; otherwise
one successor path per link is enqueued. -/
def suggestLoop (fmt : StoryFormat) (story : Story) (maxDepth : ℕ) :
    ℕ → List (List String) → List (List String) → List (List String)
  | 0, _, paths => paths
  | fuel + 1, [], paths => paths
  | fuel + 1, currentPath :: queue', paths =>
    if 10 ≤ paths.length then paths
    else
        if maxDepth ≤ currentPath.length then
          suggestLoop fmt story maxDepth fuel queue' (paths ++ [currentPath])
        else
          match mapLookup story.passages (currentPath.getLastD "") with
          | none => suggestLoop fmt story maxDepth fuel queue' paths
          | some passage =>
            if fmt.parseLinks passage.content = [] then
              suggestLoop fmt story maxDepth fuel queue'
                (paths ++ [currentPath])
            else
              suggestLoop fmt story maxDepth fuel
                (queue' ++ (fmt.parseLinks passage.content).map
                  (fun link => currentPath ++ [link]))
                paths

/-- `GetSuggestedPaths` (part_003 lines 251-286). -/
def getSuggestedPaths (fmt : StoryFormat) (story : Story)
    (startPassage : String) (maxDepth fuel : ℕ) : List (List String) :=
  suggestLoop fmt story maxDepth fuel [[startPassage]] []

/-- C2: when validation fails, `SimulatePath` returns immediately with
`success=false`, ALL the validation errors, an empty step list and no
processing performed; and `success` is true exactly when validation
passes (`SimulatePath` is a total function into result objects — it
never fails to return one). -/
theorem C2_validation_fatal (fmt : StoryFormat) (story : Story)
    (path : List String) :
    (validatePath fmt story path ≠ [] →
      simulatePath fmt story path =
        { success := false, path := path, steps := [], finalState := [],
          errors := validatePath fmt story path, totalWarnings := 0 }) ∧
    (simulatePath fmt story path).success =
      decide (validatePath fmt story path = []) := by
  constructor
  · intro h
    simp only [simulatePath, if_pos h]
  · by_cases h : validatePath fmt story path = []
    · simp [simulatePath, h]
    · simp [simulatePath, h]

/-- A link-free format stub for the C2 witness. -/
def c2Format : StoryFormat := ⟨fun _ => [], fun _ st _ _ _ => st⟩

/-- A one-passage story for the C2 witness. -/
def c2Story : Story := ⟨[("A", ⟨"A", [], ""⟩)], "harlowe"⟩

/-- C2 witness: the path A → C produces two validation errors (C does
not exist, and A has no link to C), and the simulation returns both,
with no steps. -/
theorem C2_witness :
    simulatePath c2Format c2Story ["A", "C"] =
      { success := false, path := ["A", "C"], steps := [], finalState := [],
        errors := validatePath c2Format c2Story ["A", "C"],
        totalWarnings := 0 } ∧
    (validatePath c2Format c2Story ["A", "C"]).length = 2 :=
  ⟨(C2_validation_fatal c2Format c2Story ["A", "C"]).1 (by decide),
   by decide⟩

theorem mkChange_spec (st : List (String × Value)) (name : String)
    (v : Value) :
    ((mkChange st name v).previous = none →
      (mkChange st name v).delta = none) ∧
    (∀ p pn cn, (mkChange st name v).previous = some p →
      simToNumber p = some pn →
      simToNumber (mkChange st name v).current = some cn →
      (mkChange st name v).delta = some (cn - pn)) := by
  unfold mkChange
  cases h : mapLookup st name with
  | none =>
      refine ⟨fun _ => rfl, ?_⟩
      intro p pn cn hp
      exact absurd hp (by simp)
  | some prev =>
      constructor
      · intro habs
        exact absurd habs (by simp)
      · intro p pn cn hp hpn hcn
        have hpprev : prev = p := by simpa using hp
        subst hpprev
        simp only at hcn
        simp only [hpn, hcn]

theorem simLoop_changes (fmt : StoryFormat) (story : Story) :
    ∀ (titles : List String) (i : ℕ) (visited : List (String × ℕ))
      (history : List String) (st : List (String × Value)),
      ∀ step ∈ (simLoop fmt story titles i visited history st).1,
        ∃ (stB stN : List (String × Value)), step.changes =
          stN.map (fun kv => (kv.1, mkChange stB kv.1 kv.2)) := by
  intro titles
  induction titles with
  | nil =>
      intro i visited history st step hstep
      simp [simLoop] at hstep
  | cons title rest ih =>
      intro i visited history st step hstep
      rw [simLoop] at hstep
      cases hlk : mapLookup story.passages title with
      | none =>
          rw [hlk] at hstep
          exact ih (i + 1) visited history st step hstep
      | some passage =>
          rw [hlk] at hstep
          simp only [List.mem_cons] at hstep
          rcases hstep with rfl | hstep
          · exact ⟨st,
              fmt.processPassageContent passage.content st
                (mapInsert visited title ((mapLookup visited title).getD 0 + 1))
                (history ++ [title]) title, rfl⟩
          · exact ih (i + 1) _ _ _ step hstep

/-- C6: in every step `SimulatePath` produces, a variable present both
before and after the step whose two values are numeric has
`delta = current − previous`, and a variable first introduced during
the step has `previous` recorded as absent and `delta` absent. -/
theorem C6_delta_computation (fmt : StoryFormat) (story : Story)
    (path : List String) :
    ∀ step ∈ (simulatePath fmt story path).steps,
      ∀ nc ∈ step.changes,
        (nc.2.previous = none → nc.2.delta = none) ∧
        (∀ p pn cn, nc.2.previous = some p → simToNumber p = some pn →
          simToNumber nc.2.current = some cn →
          nc.2.delta = some (cn - pn)) := by
  intro step hstep nc hnc
  have hsteps : ∃ i v h st, step ∈ (simLoop fmt story path i v h st).1 := by
    by_cases hval : validatePath fmt story path ≠ []
    · rw [(C2_validation_fatal fmt story path).1 hval] at hstep
      exact absurd hstep (by simp)
    · rw [not_not] at hval
      simp only [simulatePath, hval] at hstep
      exact ⟨0, [], [], [], by simpa using hstep⟩
  obtain ⟨i, v, h, st, hmem⟩ := hsteps
  obtain ⟨stB, stN, hch⟩ :=
    simLoop_changes fmt story path i v h st step hmem
  rw [hch] at hnc
  rw [List.mem_map] at hnc
  obtain ⟨kv, _, hkv⟩ := hnc
  have hnc2 : nc.2 = mkChange stB kv.1 kv.2 := by rw [← hkv]
  rw [hnc2]
  exact mkChange_spec stB kv.1 kv.2

/-- A two-passage story for the C6 witness: A links to B, and each
passage's processing writes `hp`. -/
def c6Story : Story :=
  ⟨[("A", ⟨"A", [], "one"⟩), ("B", ⟨"B", [], "two"⟩)], "harlowe"⟩

/-- The C6 witness format: passage A links to B; processing passage A
sets `hp` to 5, processing passage B sets `hp` to 2. -/
def c6Format : StoryFormat :=
  ⟨fun c => if c = "one" then ["B"] else [],
   fun c st _ _ _ =>
     if c = "one" then mapInsert st "hp" (.num 5)
     else if c = "two" then mapInsert st "hp" (.num 2)
     else st⟩

/-- The first step the C6 witness simulation produces: `hp` is newly
introduced, so `previous` and `delta` are absent. -/
def c6Step1 : StepResult :=
  { passageTitle := "A", passageIndex := 1,
    changes := [("hp", { name := "hp", previous := none,
                         current := .num 5, delta := none })],
    warnings := ["hp è sotto soglia critica"], availableLinks := ["B"] }

/-- The second step the C6 witness simulation produces: `hp` goes from
5 to 2, so `delta = −3`. -/
def c6Step2 : StepResult :=
  { passageTitle := "B", passageIndex := 2,
    changes := [("hp", { name := "hp", previous := some (.num 5),
                         current := .num 2, delta := some (2 - 5) })],
    warnings := ["hp è sotto soglia critica"], availableLinks := [] }

/-- C6 witness: on the path A → B, step 1 introduces `hp` (previous and
delta absent) and step 2 changes it from 5 to 2 (delta −3); the
per-change properties are those of the C6 theorem applied at this
simulation. -/
theorem C6_witness :
    (simulatePath c6Format c6Story ["A", "B"]).steps = [c6Step1, c6Step2] ∧
    (∀ nc ∈ c6Step1.changes,
      (nc.2.previous = none → nc.2.delta = none) ∧
      (∀ p pn cn, nc.2.previous = some p → simToNumber p = some pn →
        simToNumber nc.2.current = some cn →
        nc.2.delta = some (cn - pn))) ∧
    (∀ nc ∈ c6Step2.changes,
      (nc.2.previous = none → nc.2.delta = none) ∧
      (∀ p pn cn, nc.2.previous = some p → simToNumber p = some pn →
        simToNumber nc.2.current = some cn →
        nc.2.delta = some (cn - pn))) := by
  have hsteps : (simulatePath c6Format c6Story ["A", "B"]).steps =
      [c6Step1, c6Step2] := by rfl
  refine ⟨hsteps, ?_, ?_⟩
  · exact fun nc hnc => C6_delta_computation c6Format c6Story ["A", "B"]
      c6Step1 (by rw [hsteps]; exact List.mem_cons_self _ _) nc hnc
  · exact fun nc hnc => C6_delta_computation c6Format c6Story ["A", "B"]
      c6Step2 (by rw [hsteps]; simp) nc hnc

theorem suggestLoop_spec (fmt : StoryFormat) (story : Story)
    (maxDepth : ℕ) :
    ∀ (fuel : ℕ) (queue paths : List (List String)),
      (∀ q ∈ queue, q ≠ []) →
      paths.length ≤ 10 →
      (∀ p ∈ paths, p ≠ [] ∧ (maxDepth ≤ p.length ∨
        ∃ pass, mapLookup story.passages (p.getLastD "") = some pass ∧
          fmt.parseLinks pass.content = [])) →
      (suggestLoop fmt story maxDepth fuel queue paths).length ≤ 10 ∧
      ∀ p ∈ suggestLoop fmt story maxDepth fuel queue paths,
        p ≠ [] ∧ (maxDepth ≤ p.length ∨
          ∃ pass, mapLookup story.passages (p.getLastD "") = some pass ∧
            fmt.parseLinks pass.content = []) := by
  intro fuel
  induction fuel with
  | zero => intro queue paths _ h10 hP; exact ⟨h10, hP⟩
  | succ fuel ih =>
      intro queue paths hq h10 hP
      cases queue with
      | nil => rw [suggestLoop]; exact ⟨h10, hP⟩
      | cons currentPath queue' =>
        rw [suggestLoop]
        by_cases hfull : 10 ≤ paths.length
        · rw [if_pos hfull]
          exact ⟨h10, hP⟩
        · rw [if_neg hfull]
          have hcur : currentPath ≠ [] :=
            hq currentPath (List.mem_cons_self _ _)
          have hq' : ∀ q ∈ queue', q ≠ [] :=
            fun q hmem => hq q (List.mem_cons_of_mem _ hmem)
          by_cases hd : maxDepth ≤ currentPath.length
          · rw [if_pos hd]
            refine ih queue' (paths ++ [currentPath]) hq' ?_ ?_
            · simp only [List.length_append, List.length_singleton]
              omega
            · intro p hp
              rcases List.mem_append.mp hp with hp | hp
              · exact hP p hp
              · rw [List.mem_singleton.mp hp]
                exact ⟨hcur, Or.inl hd⟩
          · rw [if_neg hd]
            cases hlk : mapLookup story.passages (currentPath.getLastD "") with
            | none => exact ih queue' paths hq' h10 hP
            | some passage =>
                by_cases hlinks : fmt.parseLinks passage.content = []
                · simp only [if_pos hlinks]
                  refine ih queue' (paths ++ [currentPath]) hq' ?_ ?_
                  · simp only [List.length_append, List.length_singleton]
                    omega
                  · intro p hp
                    rcases List.mem_append.mp hp with hp | hp
                    · exact hP p hp
                    · rw [List.mem_singleton.mp hp]
                      exact ⟨hcur, Or.inr ⟨passage, hlk, hlinks⟩⟩
                · simp only [if_neg hlinks]
                  refine ih _ paths ?_ h10 hP
                  intro q hmem
                  rcases List.mem_append.mp hmem with hmem | hmem
                  · exact hq' q hmem
                  · obtain ⟨link, _, rfl⟩ := List.mem_map.mp hmem
                    simp

/-- C9 amended: `GetSuggestedPaths` returns at most 10 paths, and every
returned path either has at least `maxDepth` PASSAGES — that is,
`maxDepth − 1` links, not `maxDepth` links — or ends at an existing
passage with no outbound links. -/
theorem C9_suggested_paths (fmt : StoryFormat) (story : Story)
    (start : String) (maxDepth fuel : ℕ) :
    (getSuggestedPaths fmt story start maxDepth fuel).length ≤ 10 ∧
    ∀ p ∈ getSuggestedPaths fmt story start maxDepth fuel,
      p ≠ [] ∧ (maxDepth ≤ p.length ∨
        ∃ pass, mapLookup story.passages (p.getLastD "") = some pass ∧
          fmt.parseLinks pass.content = []) :=
  suggestLoop_spec fmt story maxDepth fuel [[start]] []
    (by simp) (by simp) (by simp)

/-- The C9 story: Start links to A, A links to B, B is a dead end. -/
def c9Story : Story :=
  ⟨[("Start", ⟨"Start", [], "linkA"⟩), ("A", ⟨"A", [], "linkB"⟩),
    ("B", ⟨"B", [], ""⟩)], "harlowe"⟩

/-- The C9 format: each content marker maps to its outbound link. -/
def c9Format : StoryFormat :=
  ⟨fun c => if c = "linkA" then ["A"] else if c = "linkB" then ["B"] else [],
   fun _ st _ _ _ => st⟩

/-- C9 counterexample: with `maxDepth = 2`, the only returned path is
Start → A, which has ONE link (two passages), not `maxDepth = 2` links,
and its final passage A does have an outbound link — the code collects
a path once it has `maxDepth` passages, i.e. `maxDepth − 1` links. -/
theorem C9_counterexample :
    getSuggestedPaths c9Format c9Story "Start" 2 10 = [["Start", "A"]] ∧
    (["Start", "A"].length - 1 = 1 ∧ (1 : ℕ) ≠ 2) ∧
    (∃ p, mapLookup c9Story.passages "A" = some p ∧
      c9Format.parseLinks p.content = ["B"]) := by
  refine ⟨by decide, ⟨rfl, by decide⟩, ⟨⟨"A", [], "linkB"⟩, by decide, by decide⟩⟩

/-- C9 witness: the amended statement applied to the concrete story:
the single returned path Start → A has at least 2 passages. -/
theorem C9_witness :
    (getSuggestedPaths c9Format c9Story "Start" 2 10).length ≤ 10 ∧
    (["Start", "A"] ≠ [] ∧ ((2 : ℕ) ≤ ["Start", "A"].length ∨
      ∃ pass, mapLookup c9Story.passages (["Start", "A"].getLastD "") =
          some pass ∧ c9Format.parseLinks pass.content = [])) :=
  ⟨(C9_suggested_paths c9Format c9Story "Start" 2 10).1,
   (C9_suggested_paths c9Format c9Story "Start" 2 10).2 ["Start", "A"]
     (by decide)⟩

end Tweego
